import Mathlib

/-!
Shallow embedding of the jspm build orchestrator (`src/build/index.ts`):
the `build` function that normalizes inputs, resolves the output file
extension against the package boundary, and drives the bundling engine in
one-shot or watch mode.  External collaborators (path helpers, the
resolution utilities, the bundling engine's reported chunks, the ambient
JavaScript global scope) are modelled as an explicit environment record;
observable actions (warnings, logs, filesystem calls, engine invocations)
are modelled as a trace of effects returned by `build`.
-/

namespace JspmBuild

/-- JavaScript truthiness of an optional boolean field (`opts.x` is truthy
exactly when the key is present with value `true`). -/
def truthy : Option Bool → Bool
  | some true => true
  | _ => false

/-- JavaScript string conversion of a possibly-undefined string value:
string concatenation renders a missing value as `"undefined"`. -/
def optStr : Option String → String
  | some s => s
  | none => "undefined"

/-- Terminal bold styling from `../utils/common`; purely presentational,
modelled as the identity on the text. -/
def bold (s : String) : String := s

/-- Terminal syntax highlighting from `../utils/common`; purely
presentational, modelled as the identity on the text. -/
def highlight (s : String) : String := s

/-- Split a character list at every occurrence of `sep` (the separator is
dropped; adjacent separators produce empty segments). -/
def splitOnChar (sep : Char) : List Char → List (List Char)
  | [] => [[]]
  | c :: cs =>
    if c = sep then [] :: splitOnChar sep cs
    else
      match splitOnChar sep cs with
      | [] => [[c]]
      | h :: t => (c :: h) :: t

/-- Whether the first character list is a prefix of the second. -/
def isPrefixOfChars : List Char → List Char → Bool
  | [], _ => true
  | _ :: _, [] => false
  | a :: as, b :: bs => a = b && isPrefixOfChars as bs

/-- JavaScript `s.endsWith(suffix)`. -/
def endsWithStr (s suffix : String) : Bool :=
  isPrefixOfChars suffix.data.reverse s.data.reverse

/-- JavaScript `s.startsWith(prefix)`. -/
def startsWithStr (s pre : String) : Bool :=
  isPrefixOfChars pre.data s.data

/-- `path.replace(winSepRegEx, '/')`: normalize Windows separators to
forward slashes. -/
def replaceBackslashes (s : String) : String :=
  String.mk (s.data.map (fun c => if c = '\\' then '/' else c))

/-- Node `path.basename` on posix-style paths: the last `/`-separated
segment of the path. -/
def basename (p : String) : String :=
  String.mk ((splitOnChar '/' p.data).getLastD [])

/-- `basename.substr(0, basename.lastIndexOf('.'))`: everything before the
last dot.  When the name has no dot, JavaScript `lastIndexOf` returns `-1`
and `substr(0, -1)` is the empty string. -/
def stripExt (s : String) : String :=
  match s.data.reverse.findIdx? (fun c => c = '.') with
  | none => ""
  | some k => String.mk (s.data.take (s.data.length - 1 - k))

/-- The collision loop `while (inputName in inputObj) inputName = basename + i++`
unrolled with explicit fuel: try `b ++ i`, `b ++ (i+1)`, … until a name
not already taken is found (JavaScript number-to-string is decimal,
i.e. `Nat.repr`). -/
def freshFrom (taken : List String) (b : String) : Nat → Nat → String
  | 0, i => b ++ Nat.repr i
  | fuel+1, i =>
    let c := b ++ Nat.repr i
    if c ∈ taken then freshFrom taken b fuel (i+1) else c

/-- The entry name chosen for base name `b` given the names already taken:
the bare base name if free, else the first `b ++ "0"`, `b ++ "1"`, … that
is free (`taken.length + 1` candidates always suffice). -/
def pickName (taken : List String) (b : String) : String :=
  if b ∈ taken then freshFrom taken b (taken.length + 1) 0 else b

/-- The `format` option enumeration of `BuildOptions`. -/
inductive Format
  | esm | cjs | amd | system | iife | umd
deriving DecidableEq, Repr

/-- The `BuildOptions` interface.  Optional fields are `Option`s with
`none` meaning the key is absent; the `env`, `globals` and `target`
payloads are passed through opaquely and abstracted to simple data. -/
structure BuildOptions where
  log : Bool
  projectPath : Option String := none
  removeDir : Option Bool := none
  env : Option String := none
  sourcemap : Option Bool := none
  mjs : Option Bool := none
  out : Option String := none
  format : Option Format := none
  external : Option (List String) := none
  globals : Option (List (String × String)) := none
  banner : Option String := none
  showGraph : Option Bool := none
  watch : Option Bool := none
  target : Option String := none
  inlineDeps : Option Bool := none
deriving DecidableEq, Repr

/-- The manifest configuration returned by `utils.readPackageConfigSync`:
only its `type` field is inspected. -/
structure PackageConfig where
  type : Option String := none
deriving DecidableEq, Repr

/-- One rollup output chunk as consumed by the graph summary: its declared
name, the chunks it imports, and its constituent source modules
(`Object.keys(entry.modules)`). -/
structure Chunk where
  name : String
  imports : List String
  modules : List String
deriving DecidableEq, Repr

/-- The external collaborators of `build`: process state (`cwd`), the
`path` module (`sep`, `resolve`, `relative`), the `@jspm/resolve`
utilities, the value of the free identifier `name` read by the graph
summary (not defined by this module — in scope only as an ambient
JavaScript global), and the chunks the bundling engine reports from
`write`. -/
structure Env where
  cwd : String
  sep : String
  resolveOut : Option String → String
  relative : String → String → String
  getPackageBoundarySync : String → Option String
  readPackageConfigSync : String → PackageConfig
  jsGlobalName : String
  engineOutput : List Chunk

/-- The rollup output descriptor assembled by `build`: the watch branch
sets no `entryFileNames`/`chunkFileNames` keys (`none`), the one-shot
`write` call sets both. -/
structure OutputSpec where
  entryFileNames : Option String := none
  chunkFileNames : Option String := none
  exports : String
  dir : Option String
  format : Option Format
  sourcemap : Option Bool
  indent : Bool
  banner : Option String
deriving DecidableEq, Repr

/-- Observable actions of one `build` call, in program order. -/
inductive Effect
  | warned (msg : String)
  | checkedBoundary (dir : String)
  | watchStarted (spec : OutputSpec)
  | suspended
  | engineBuilt (inputs : List (String × String))
  | removedDir (dir : Option String)
  | createdDir (dir : Option String)
  | wrote (spec : OutputSpec)
  | okLogged (msg : String)
  | printed (line : String)
deriving DecidableEq, Repr

/-- The `input` argument of `build`: an ordered list of module paths or an
explicit name-to-path object (modelled as an insertion-ordered
association list). -/
inductive BuildInput
  | list (paths : List String)
  | map (entries : List (String × String))
deriving DecidableEq, Repr

/-- `if (!opts.format) opts.format = 'esm'`: the in-place default applied
to the caller's options object at the top of `build`. -/
def withDefaultFormat (opts : BuildOptions) : BuildOptions :=
  if opts.format = none then { opts with format := some Format.esm } else opts

/-- State of the input-normalization loop: the entries accumulated in
`inputObj` (insertion-ordered) and the current value of `ext`. -/
structure ScanState where
  entries : List (String × String)
  ext : String
deriving DecidableEq, Repr

/-- One iteration of `for (const module of input)`: possibly switch `ext`
to `.mjs`, strip the basename's extension, pick a collision-free entry
name and record the entry. -/
def scanStep (opts : BuildOptions) (st : ScanState) (module : String) : ScanState :=
  let ext := if opts.format = some Format.esm ∧ opts.mjs = none ∧ endsWithStr module ".mjs"
    then ".mjs" else st.ext
  let b := stripExt (basename module)
  let nm := pickName (st.entries.map Prod.fst) b
  { entries := st.entries ++ [(nm, module)], ext := ext }

/-- The whole normalization loop over a list-style input. -/
def scanInputs (opts : BuildOptions) (ext0 : String) (paths : List String) : ScanState :=
  paths.foldl (scanStep opts) ⟨[], ext0⟩

/-- The canonical name-to-path map `build` constructs for list-style
inputs (the `inputObj` handed to rollup). -/
def canonicalEntries (opts : BuildOptions) (paths : List String) : List (String × String) :=
  (scanInputs opts (if truthy opts.mjs then ".mjs" else ".js") paths).entries

/-- The manifest path printed by the boundary warning:
`path.relative(process.cwd(), boundary + '/package.json')`, prefixed with
`./` when it does not already start with `../`. -/
def pjsonRelPath (env : Env) (boundary : String) : String :=
  let p := env.relative env.cwd (boundary ++ "/package.json")
  if startsWithStr p (".." ++ env.sep) then p else "." ++ env.sep ++ p

/-- The warning text surfaced when the output package scope lacks a
module-type boundary. -/
def boundaryWarning (pjsonPath : String) : String :=
  "Output package scope at " ++ highlight pjsonPath ++ " does not have a " ++
    bold "\"type\": \"module\"" ++ " boundary, so outputting mjs."

/-- The package-boundary inspection: only for esm format with no `mjs` key
and `ext` still not `.mjs`; switches to `.mjs` with a warning when the
boundary manifest's `type` is not `"module"`. -/
def boundaryCheck (opts : BuildOptions) (env : Env) (ext : String) : List Effect × String :=
  if opts.format = some Format.esm ∧ opts.mjs = none ∧ ext ≠ ".mjs" then
    let outdir := env.resolveOut opts.out
    match env.getPackageBoundarySync (outdir ++ "/") with
    | none => ([Effect.checkedBoundary (outdir ++ "/")], ext)
    | some boundary =>
      let pjson := env.readPackageConfigSync boundary
      if pjson.type ≠ some "module" then
        ([Effect.checkedBoundary (outdir ++ "/"),
          Effect.warned (boundaryWarning (pjsonRelPath env boundary))], ".mjs")
      else
        ([Effect.checkedBoundary (outdir ++ "/")], ext)
  else ([], ext)

/-- The output descriptor passed to `build.write` in one-shot mode. -/
def oneShotSpec (opts : BuildOptions) (ext : String) : OutputSpec :=
  { entryFileNames := some ("[name]" ++ ext)
    chunkFileNames := some ("chunk-[hash]" ++ ext)
    exports := "named"
    dir := opts.out
    format := opts.format
    sourcemap := opts.sourcemap
    indent := true
    banner := opts.banner }

/-- The `rollupOptions.output` descriptor installed before `rollup.watch`:
same fields as one-shot except that no file-naming patterns are set. -/
def watchOutputSpec (opts : BuildOptions) : OutputSpec :=
  { entryFileNames := none
    chunkFileNames := none
    exports := "named"
    dir := opts.out
    format := opts.format
    sourcemap := opts.sourcemap
    indent := true
    banner := opts.banner }

/-- Insertion into a lexicographically sorted list of strings. -/
def insertSorted (x : String) : List String → List String
  | [] => [x]
  | y :: ys => if x ≤ y then x :: y :: ys else y :: insertSorted x ys

/-- Model of JavaScript lexicographic `Array.sort` on strings. -/
def sortStrings (l : List String) : List String :=
  l.foldr insertSorted []

/-- The console lines printed for one chunk by the graph summary.  The
header interpolates the free identifier `name` — an ambient global, not
the chunk — followed by ` imports ` (when the import list is non-empty)
and the sorted comma-joined imports; then each sorted constituent module
path relative to `cwd` with backslashes normalized, then a blank line. -/
def chunkLines (env : Env) (c : Chunk) : List String :=
  let header := bold env.jsGlobalName ++
    (if c.imports.length ≠ 0 then " imports " else "") ++
    String.intercalate ", " (sortStrings c.imports) ++ ":"
  (header :: (sortStrings c.modules).map
      (fun m => "  " ++ replaceBackslashes (env.relative env.cwd m))) ++ [""]

/-- The console lines of the whole graph summary (a leading blank line,
then each chunk's lines), printed only when `showGraph` and `log` are both
set. -/
def graphEffects (opts : BuildOptions) (env : Env) : List Effect :=
  if truthy opts.showGraph ∧ opts.log then
    (Effect.printed "" :: ((env.engineOutput.map (chunkLines env)).flatten).map Effect.printed)
  else []

/-- The one-shot tail of `build`: invoke the engine, optionally remove and
recreate the output directory, write with the resolved extension, log
success, and print the graph summary. -/
def oneShotEffects (opts : BuildOptions) (env : Env)
    (entries : List (String × String)) (ext : String) : List Effect :=
  [Effect.engineBuilt entries]
    ++ (if truthy opts.removeDir then [Effect.removedDir opts.out, Effect.createdDir opts.out] else [])
    ++ [Effect.wrote (oneShotSpec opts ext)]
    ++ (if opts.log then [Effect.okLogged ("Built into " ++ highlight (optStr opts.out ++ "/"))] else [])
    ++ graphEffects opts env

/-- The executor stage: run the boundary inspection, then either start the
watcher and suspend forever (watch mode never reaches the one-shot code)
or perform the one-shot build. -/
def runBuild (opts : BuildOptions) (env : Env)
    (entries : List (String × String)) (ext : String) : List Effect :=
  let bc := boundaryCheck opts env ext
  if truthy opts.watch then
    bc.1 ++ [Effect.watchStarted (watchOutputSpec opts), Effect.suspended]
  else
    bc.1 ++ oneShotEffects opts env entries bc.2

/-- The exported `build(input, opts)` function: returns the effect trace
of the call together with the caller's options object as it stands after
the call (the `format` default is written into it in place). -/
def build (input : BuildInput) (opts : BuildOptions) (env : Env) :
    List Effect × BuildOptions :=
  let opts1 := withDefaultFormat opts
  let ext0 := if truthy opts1.mjs then ".mjs" else ".js"
  match input with
  | BuildInput.map entries => (runBuild opts1 env entries ext0, opts1)
  | BuildInput.list paths =>
    if paths.length = 0 then
      ([Effect.warned "No inputs provided to build."], opts1)
    else
      let st := scanInputs opts1 ext0 paths
      (runBuild opts1 env st.entries st.ext, opts1)

/-- Projection selecting the `wrote` effect's output descriptor. -/
def wroteProj : Effect → Option OutputSpec
  | Effect.wrote s => some s
  | _ => none

/-- Projection selecting the `watchStarted` effect's output descriptor. -/
def watchProj : Effect → Option OutputSpec
  | Effect.watchStarted s => some s
  | _ => none

/-- Projection selecting a printed console line. -/
def printedProj : Effect → Option String
  | Effect.printed l => some l
  | _ => none

/-- Projection selecting a warning message. -/
def warnProj : Effect → Option String
  | Effect.warned m => some m
  | _ => none

/-- Projection selecting a package-boundary inspection. -/
def checkedProj : Effect → Option String
  | Effect.checkedBoundary d => some d
  | _ => none

/-- The output descriptor of the one-shot `write` call in a trace, if
any. -/
def writtenSpec? (tr : List Effect) : Option OutputSpec :=
  tr.findSome? wroteProj

/-- The output descriptor handed to `rollup.watch` in a trace, if any. -/
def watchStartedSpec? (tr : List Effect) : Option OutputSpec :=
  tr.findSome? watchProj

/-- All console lines printed in a trace. -/
def printedLines (tr : List Effect) : List String :=
  tr.filterMap printedProj

/-- All warning messages surfaced in a trace. -/
def warnings (tr : List Effect) : List String :=
  tr.filterMap warnProj

/-- All package-boundary inspections performed in a trace. -/
def boundaryChecks (tr : List Effect) : List String :=
  tr.filterMap checkedProj

/-- Effects that only the one-shot path after the watch suspension can
produce: engine one-shot invocation, directory removal and recreation,
the write, the success log, and graph printing. -/
def isOneShotEffect : Effect → Bool
  | Effect.engineBuilt _ => true
  | Effect.removedDir _ => true
  | Effect.createdDir _ => true
  | Effect.wrote _ => true
  | Effect.okLogged _ => true
  | Effect.printed _ => true
  | _ => false

/-- A `build` input that does not trigger the empty-list early return. -/
def nonEmptyInput : BuildInput → Prop
  | BuildInput.list paths => paths ≠ []
  | BuildInput.map _ => True

instance : DecidablePred nonEmptyInput := fun i => by
  cases i <;> simp [nonEmptyInput] <;> infer_instance

/-- A `build` input none of whose list-style paths ends in `.mjs` (a
name-to-path object imposes no constraint: the scan does not run on
it). -/
def noMjsListInput : BuildInput → Prop
  | BuildInput.list paths => ∀ p ∈ paths, endsWithStr p ".mjs" = false
  | BuildInput.map _ => True

instance : DecidablePred noMjsListInput := fun i => by
  cases i <;> simp [noMjsListInput] <;> infer_instance

/-- Decimal value of a digit-character list; a left inverse of
`Nat.toDigits 10` used to show decimal rendering is injective. -/
def decVal (l : List Char) : Nat :=
  l.foldl (fun a c => a * 10 + (c.toNat - 48)) 0

/-- The normalization result `build` computes before the boundary
inspection: for a list-style input the scan loop's entries and extension,
for a name-to-path object the object itself with the extension from the
`mjs` option alone. -/
def normalizeInput (opts : BuildOptions) : BuildInput → ScanState
  | BuildInput.list paths =>
    scanInputs opts (if truthy opts.mjs then ".mjs" else ".js") paths
  | BuildInput.map entries =>
    ⟨entries, if truthy opts.mjs then ".mjs" else ".js"⟩

/-! Concrete fixtures used to instantiate the theorems. -/

/-- A minimal environment: posix separators, no package boundary, no
chunks reported. -/
def simpleEnv : Env where
  cwd := "/work"
  sep := "/"
  resolveOut := fun o => "/work/" ++ optStr o
  relative := fun _ p => p
  getPackageBoundarySync := fun _ => none
  readPackageConfigSync := fun _ => {}
  jsGlobalName := "undefined"
  engineOutput := []

/-- An environment whose output directory sits under a package boundary
whose manifest declares `type: "commonjs"`. -/
def boundaryEnv : Env :=
  { simpleEnv with
    getPackageBoundarySync := fun _ => some "/work/proj"
    readPackageConfigSync := fun _ => { type := some "commonjs" } }

/-- An environment in which the engine reports two chunks that differ
only in their declared names. -/
def graphEnv : Env :=
  { simpleEnv with
    engineOutput :=
      [ { name := "a", imports := [], modules := ["/work/src/m1.js"] },
        { name := "b", imports := [], modules := ["/work/src/m1.js"] } ] }

/-- Options for an esm build with no `mjs` key. -/
def c1opts : BuildOptions :=
  { log := false, format := some Format.esm, out := some "dist" }

/-- Options for a cjs build with `mjs: true`. -/
def c2opts : BuildOptions :=
  { log := false, format := some Format.cjs, mjs := some true, out := some "dist" }

/-- Options for a watch-mode build. -/
def watchOpts : BuildOptions :=
  { log := false, format := some Format.cjs, out := some "dist", watch := some true }

/-- Options for a logged build with the graph summary enabled. -/
def c8opts : BuildOptions :=
  { log := true, showGraph := some true, format := some Format.cjs, out := some "dist" }

/-! Decimal rendering of naturals (`Nat.repr`, the model of JavaScript
number-to-string) is injective: `decVal` inverts it. -/

theorem digitChar_toNat {d : Nat} (h : d < 10) : (Nat.digitChar d).toNat = 48 + d := by
  interval_cases d <;> rfl

theorem toDigitsCore_append (fuel : Nat) :
    ∀ (n : Nat) (ds : List Char),
      Nat.toDigitsCore 10 fuel n ds = Nat.toDigitsCore 10 fuel n [] ++ ds := by
  induction fuel with
  | zero => intro n ds; rfl
  | succ f ih =>
    intro n ds
    simp only [Nat.toDigitsCore]
    by_cases h : n / 10 = 0
    · rw [if_pos h, if_pos h]; rfl
    · rw [if_neg h, if_neg h, ih (n / 10) (Nat.digitChar (n % 10) :: ds),
        ih (n / 10) [Nat.digitChar (n % 10)]]
      simp

theorem decVal_toDigitsCore : ∀ (fuel n : Nat), n < fuel →
    decVal (Nat.toDigitsCore 10 fuel n []) = n := by
  intro fuel
  induction fuel with
  | zero => intro n h; exact absurd h (Nat.not_lt_zero n)
  | succ f ih =>
    intro n h
    simp only [Nat.toDigitsCore]
    by_cases h0 : n / 10 = 0
    · rw [if_pos h0]
      have hm : n % 10 < 10 := Nat.mod_lt n (by decide)
      simp [decVal, digitChar_toNat hm]
      omega
    · rw [if_neg h0, toDigitsCore_append]
      have hrec : n / 10 < f := by omega
      have hIH := ih (n / 10) hrec
      have hm : n % 10 < 10 := Nat.mod_lt n (by decide)
      unfold decVal at hIH ⊢
      rw [List.foldl_append, hIH]
      simp [digitChar_toNat hm]
      omega

theorem natRepr_injective : Function.Injective Nat.repr := by
  intro m n h
  have hd : Nat.toDigits 10 m = Nat.toDigits 10 n := by
    have hdata := congrArg String.data h
    simpa [Nat.repr, List.asString] using hdata
  have hm : decVal (Nat.toDigits 10 m) = m := decVal_toDigitsCore (m + 1) m (Nat.lt_succ_self m)
  have hn : decVal (Nat.toDigits 10 n) = n := decVal_toDigitsCore (n + 1) n (Nat.lt_succ_self n)
  rw [← hm, ← hn, hd]

theorem string_append_left_cancel {b x y : String} (h : b ++ x = b ++ y) : x = y := by
  have hd : b.data ++ x.data = b.data ++ y.data := congrArg String.data h
  have hxy := List.append_cancel_left hd
  cases x; cases y; exact congrArg String.mk hxy

theorem candName_injective (b : String) :
    Function.Injective (fun i : Nat => b ++ Nat.repr i) := by
  intro i j h
  exact natRepr_injective (string_append_left_cancel h)

/-! The collision loop always finds a fresh name: among the
`taken.length + 1` pairwise-distinct candidates `b ++ "0"`, …,
`b ++ toString taken.length` at least one is not taken. -/

theorem exists_free_name (taken : List String) (b : String) :
    ∃ j, j ≤ taken.length ∧ b ++ Nat.repr j ∉ taken := by
  by_contra hc
  push_neg at hc
  have hsub : ((List.range (taken.length + 1)).map (fun i => b ++ Nat.repr i)) ⊆ taken := by
    intro x hx
    simp only [List.mem_map, List.mem_range] at hx
    obtain ⟨i, hi, rfl⟩ := hx
    exact hc i (by omega)
  have hnd : ((List.range (taken.length + 1)).map (fun i => b ++ Nat.repr i)).Nodup :=
    (List.nodup_range _).map (candName_injective b)
  have hle := (List.subperm_of_subset hnd hsub).length_le
  simp at hle

theorem freshFrom_not_mem (taken : List String) (b : String) :
    ∀ (fuel i : Nat), (∃ j, i ≤ j ∧ j < i + fuel ∧ b ++ Nat.repr j ∉ taken) →
      freshFrom taken b fuel i ∉ taken := by
  intro fuel
  induction fuel with
  | zero =>
    intro i h
    obtain ⟨j, h1, h2, _⟩ := h
    omega
  | succ f ih =>
    intro i h
    obtain ⟨j, hij, hlt, hfree⟩ := h
    simp only [freshFrom]
    by_cases hc : b ++ Nat.repr i ∈ taken
    · rw [if_pos hc]
      apply ih
      have hne : j ≠ i := by
        intro e; rw [e] at hfree; exact hfree hc
      exact ⟨j, by omega, by omega, hfree⟩
    · rw [if_neg hc]; exact hc

theorem pickName_not_mem (taken : List String) (b : String) : pickName taken b ∉ taken := by
  unfold pickName
  by_cases hb : b ∈ taken
  · rw [if_pos hb]
    apply freshFrom_not_mem
    obtain ⟨j, hj, hfree⟩ := exists_free_name taken b
    exact ⟨j, Nat.zero_le j, by omega, hfree⟩
  · rw [if_neg hb]; exact hb

/-! Invariants of the normalization loop. -/

theorem scanStep_entries (opts : BuildOptions) (st : ScanState) (module : String) :
    (scanStep opts st module).entries =
      st.entries ++
        [(pickName (st.entries.map Prod.fst) (stripExt (basename module)), module)] := rfl

theorem foldl_scan_entries (opts : BuildOptions) :
    ∀ (paths : List String) (st : ScanState),
      (st.entries.map Prod.fst).Nodup →
      (((paths.foldl (scanStep opts) st).entries.map Prod.fst).Nodup ∧
        (paths.foldl (scanStep opts) st).entries.map Prod.snd =
          st.entries.map Prod.snd ++ paths ∧
        (paths.foldl (scanStep opts) st).entries.length =
          st.entries.length + paths.length) := by
  intro paths
  induction paths with
  | nil =>
    intro st h
    refine ⟨h, by simp, by simp⟩
  | cons p ps ih =>
    intro st hnd
    simp only [List.foldl_cons]
    have hfresh := pickName_not_mem (st.entries.map Prod.fst) (stripExt (basename p))
    have hstep : ((scanStep opts st p).entries.map Prod.fst).Nodup := by
      rw [scanStep_entries]
      simp [List.nodup_append, hnd, hfresh]
    obtain ⟨h1, h2, h3⟩ := ih (scanStep opts st p) hstep
    refine ⟨h1, ?_, ?_⟩
    · rw [h2, scanStep_entries]
      simp
    · rw [h3, scanStep_entries]
      simp [Nat.add_assoc, Nat.add_comm 1 ps.length]

theorem scan_ext_sticky (opts : BuildOptions) :
    ∀ (paths : List String) (st : ScanState), st.ext = ".mjs" →
      (paths.foldl (scanStep opts) st).ext = ".mjs" := by
  intro paths
  induction paths with
  | nil => intro st h; exact h
  | cons p ps ih =>
    intro st h
    simp only [List.foldl_cons]
    apply ih
    simp only [scanStep]
    split
    · rfl
    · exact h

theorem scan_ext_stay (opts : BuildOptions) :
    ∀ (paths : List String) (st : ScanState),
      (∀ p ∈ paths, endsWithStr p ".mjs" = false) →
      (paths.foldl (scanStep opts) st).ext = st.ext := by
  intro paths
  induction paths with
  | nil => intro st h; rfl
  | cons p ps ih =>
    intro st h
    simp only [List.foldl_cons]
    rw [ih (scanStep opts st p) (fun q hq => h q (List.mem_cons_of_mem p hq))]
    have hp := h p (List.mem_cons_self p ps)
    simp only [scanStep]
    rw [if_neg (by simp [hp])]

theorem scan_ext_mjs (opts : BuildOptions) (hfmt : opts.format = some Format.esm)
    (hmjs : opts.mjs = none) :
    ∀ (paths : List String) (st : ScanState) (p : String),
      p ∈ paths → endsWithStr p ".mjs" = true →
      (paths.foldl (scanStep opts) st).ext = ".mjs" := by
  intro paths
  induction paths with
  | nil => intro st p hp; exact absurd hp (List.not_mem_nil p)
  | cons q qs ih =>
    intro st p hp hend
    simp only [List.foldl_cons]
    rcases List.mem_cons.mp hp with he | hm
    · apply scan_ext_sticky
      simp only [scanStep]
      rw [if_pos ⟨hfmt, hmjs, he ▸ hend⟩]
    · exact ih (scanStep opts st q) p hm hend

/-! Shape of the boundary-inspection stage. -/

theorem boundaryCheck_skip_mjs (opts : BuildOptions) (env : Env) :
    boundaryCheck opts env ".mjs" = ([], ".mjs") := by
  unfold boundaryCheck
  rw [if_neg]
  intro h
  exact h.2.2 rfl

theorem boundaryCheck_not_esm (opts : BuildOptions) (env : Env) (ext : String)
    (h : opts.format ≠ some Format.esm) :
    boundaryCheck opts env ext = ([], ext) := by
  unfold boundaryCheck
  rw [if_neg]
  intro hc
  exact h hc.1

theorem boundaryCheck_mjs_key (opts : BuildOptions) (env : Env) (ext : String)
    (h : opts.mjs ≠ none) :
    boundaryCheck opts env ext = ([], ext) := by
  unfold boundaryCheck
  rw [if_neg]
  intro hc
  exact h hc.2.1

theorem boundaryCheck_no_boundary (opts : BuildOptions) (env : Env) (ext : String)
    (hfmt : opts.format = some Format.esm) (hmjs : opts.mjs = none) (hext : ext ≠ ".mjs")
    (hb : env.getPackageBoundarySync (env.resolveOut opts.out ++ "/") = none) :
    boundaryCheck opts env ext =
      ([Effect.checkedBoundary (env.resolveOut opts.out ++ "/")], ext) := by
  unfold boundaryCheck
  rw [if_pos ⟨hfmt, hmjs, hext⟩]
  simp only [hb]

theorem boundaryCheck_not_module (opts : BuildOptions) (env : Env) (ext : String)
    (boundary : String)
    (hfmt : opts.format = some Format.esm) (hmjs : opts.mjs = none) (hext : ext ≠ ".mjs")
    (hb : env.getPackageBoundarySync (env.resolveOut opts.out ++ "/") = some boundary)
    (ht : (env.readPackageConfigSync boundary).type ≠ some "module") :
    boundaryCheck opts env ext =
      ([Effect.checkedBoundary (env.resolveOut opts.out ++ "/"),
        Effect.warned (boundaryWarning (pjsonRelPath env boundary))], ".mjs") := by
  unfold boundaryCheck
  rw [if_pos ⟨hfmt, hmjs, hext⟩]
  simp only [hb]
  rw [if_pos ht]

theorem boundaryCheck_module (opts : BuildOptions) (env : Env) (ext : String)
    (boundary : String)
    (hfmt : opts.format = some Format.esm) (hmjs : opts.mjs = none) (hext : ext ≠ ".mjs")
    (hb : env.getPackageBoundarySync (env.resolveOut opts.out ++ "/") = some boundary)
    (ht : (env.readPackageConfigSync boundary).type = some "module") :
    boundaryCheck opts env ext =
      ([Effect.checkedBoundary (env.resolveOut opts.out ++ "/")], ext) := by
  unfold boundaryCheck
  rw [if_pos ⟨hfmt, hmjs, hext⟩]
  simp only [hb]
  rw [if_neg (by simp [ht])]

theorem boundaryCheck_fx_shape (opts : BuildOptions) (env : Env) (ext : String) :
    ∀ e ∈ (boundaryCheck opts env ext).1,
      (∃ d, e = Effect.checkedBoundary d) ∨ (∃ m, e = Effect.warned m) := by
  intro e he
  unfold boundaryCheck at he
  by_cases hc : (opts.format = some Format.esm ∧ opts.mjs = none ∧ ext ≠ ".mjs")
  · rw [if_pos hc] at he
    cases hb : env.getPackageBoundarySync (env.resolveOut opts.out ++ "/") with
    | none =>
      simp only [hb] at he
      simp at he
      exact Or.inl ⟨_, he⟩
    | some b =>
      simp only [hb] at he
      by_cases ht : (env.readPackageConfigSync b).type ≠ some "module"
      · rw [if_pos ht] at he
        simp at he
        rcases he with he | he
        · exact Or.inl ⟨_, he⟩
        · exact Or.inr ⟨_, he⟩
      · rw [if_neg ht] at he
        simp at he
        exact Or.inl ⟨_, he⟩
  · rw [if_neg hc] at he
    simp at he

/-! Trace observers over the pieces of a `build` trace. -/

theorem findSome?_append_none {α : Type} (f : Effect → Option α) :
    ∀ (l₁ l₂ : List Effect), (∀ e ∈ l₁, f e = none) →
      (l₁ ++ l₂).findSome? f = l₂.findSome? f := by
  intro l₁
  induction l₁ with
  | nil => intro l₂ h; rfl
  | cons a l ih =>
    intro l₂ h
    have ha := h a (List.mem_cons_self a l)
    rw [List.cons_append, List.findSome?_cons, ha]
    exact ih l₂ (fun e he => h e (List.mem_cons_of_mem a he))

theorem filterMap_none {α : Type} (f : Effect → Option α) :
    ∀ (l : List Effect), (∀ e ∈ l, f e = none) → l.filterMap f = [] := by
  intro l
  induction l with
  | nil => intro h; rfl
  | cons a l ih =>
    intro h
    rw [List.filterMap_cons, h a (List.mem_cons_self a l)]
    exact ih (fun e he => h e (List.mem_cons_of_mem a he))

theorem wroteProj_bc_none (opts : BuildOptions) (env : Env) (ext : String) :
    ∀ e ∈ (boundaryCheck opts env ext).1, wroteProj e = none := by
  intro e he
  rcases boundaryCheck_fx_shape opts env ext e he with ⟨d, rfl⟩ | ⟨m, rfl⟩ <;> rfl

theorem watchProj_bc_none (opts : BuildOptions) (env : Env) (ext : String) :
    ∀ e ∈ (boundaryCheck opts env ext).1, watchProj e = none := by
  intro e he
  rcases boundaryCheck_fx_shape opts env ext e he with ⟨d, rfl⟩ | ⟨m, rfl⟩ <;> rfl

theorem writtenSpec?_oneShotEffects (opts : BuildOptions) (env : Env)
    (entries : List (String × String)) (ext : String) :
    writtenSpec? (oneShotEffects opts env entries ext) = some (oneShotSpec opts ext) := by
  unfold writtenSpec? oneShotEffects
  by_cases h1 : truthy opts.removeDir = true <;>
    simp [h1, List.findSome?_cons, wroteProj]

theorem writtenSpec?_runBuild (opts : BuildOptions) (env : Env)
    (entries : List (String × String)) (ext : String) (h : truthy opts.watch = false) :
    writtenSpec? (runBuild opts env entries ext) =
      some (oneShotSpec opts (boundaryCheck opts env ext).2) := by
  unfold runBuild
  rw [if_neg (by simp [h])]
  unfold writtenSpec?
  rw [findSome?_append_none wroteProj _ _ (wroteProj_bc_none opts env ext)]
  exact writtenSpec?_oneShotEffects opts env entries _

theorem watchStartedSpec?_runBuild (opts : BuildOptions) (env : Env)
    (entries : List (String × String)) (ext : String) (h : truthy opts.watch = true) :
    watchStartedSpec? (runBuild opts env entries ext) = some (watchOutputSpec opts) := by
  unfold runBuild
  rw [if_pos h]
  unfold watchStartedSpec?
  rw [findSome?_append_none watchProj _ _ (watchProj_bc_none opts env ext)]
  rfl

theorem checkedProj_oneShot_none (opts : BuildOptions) (env : Env)
    (entries : List (String × String)) (ext : String) :
    ∀ e ∈ oneShotEffects opts env entries ext, checkedProj e = none := by
  unfold oneShotEffects graphEffects
  intro e he
  rcases List.mem_append.mp he with h | he
  · simp at h
    rcases h with h | ⟨_, h | h⟩ | h | ⟨_, h⟩ <;> subst h <;> rfl
  · split at he
    · rcases List.mem_cons.mp he with h | h
      · subst h; rfl
      · obtain ⟨l, _, rfl⟩ := List.mem_map.mp h
        rfl
    · simp at he

theorem boundaryChecks_runBuild_oneShot (opts : BuildOptions) (env : Env)
    (entries : List (String × String)) (ext : String) (h : truthy opts.watch = false) :
    boundaryChecks (runBuild opts env entries ext) =
      boundaryChecks (boundaryCheck opts env ext).1 := by
  unfold runBuild
  rw [if_neg (by simp [h])]
  unfold boundaryChecks
  rw [List.filterMap_append,
    filterMap_none checkedProj _ (checkedProj_oneShot_none opts env entries _),
    List.append_nil]

theorem warnings_runBuild_oneShot (opts : BuildOptions) (env : Env)
    (entries : List (String × String)) (ext : String) (h : truthy opts.watch = false)
    (m : String) (hm : Effect.warned m ∈ (boundaryCheck opts env ext).1) :
    m ∈ warnings (runBuild opts env entries ext) := by
  unfold runBuild
  rw [if_neg (by simp [h])]
  unfold warnings
  rw [List.filterMap_append]
  apply List.mem_append_left
  exact List.mem_filterMap.mpr ⟨Effect.warned m, hm, rfl⟩

theorem withDefaultFormat_of_set {opts : BuildOptions} (h : opts.format ≠ none) :
    withDefaultFormat opts = opts := by
  unfold withDefaultFormat
  rw [if_neg h]

theorem withDefaultFormat_watch (opts : BuildOptions) :
    (withDefaultFormat opts).watch = opts.watch := by
  unfold withDefaultFormat
  split <;> rfl

theorem withDefaultFormat_mjs (opts : BuildOptions) :
    (withDefaultFormat opts).mjs = opts.mjs := by
  unfold withDefaultFormat
  split <;> rfl

theorem runBuild_watch (opts : BuildOptions) (env : Env)
    (entries : List (String × String)) (ext : String) (h : truthy opts.watch = true) :
    runBuild opts env entries ext =
      (boundaryCheck opts env ext).1 ++
        [Effect.watchStarted (watchOutputSpec opts), Effect.suspended] := by
  unfold runBuild
  rw [if_pos h]

theorem scan_ext_not_esm (opts : BuildOptions) (h : opts.format ≠ some Format.esm) :
    ∀ (paths : List String) (st : ScanState),
      (paths.foldl (scanStep opts) st).ext = st.ext := by
  intro paths
  induction paths with
  | nil => intro st; rfl
  | cons p ps ih =>
    intro st
    simp only [List.foldl_cons]
    rw [ih (scanStep opts st p)]
    simp only [scanStep]
    rw [if_neg (fun hc => h hc.1)]

theorem scan_entries_opts_free (opts opts2 : BuildOptions) :
    ∀ (paths : List String) (es : List (String × String)) (e1 e2 : String),
      (paths.foldl (scanStep opts) ⟨es, e1⟩).entries =
        (paths.foldl (scanStep opts2) ⟨es, e2⟩).entries := by
  intro paths
  induction paths with
  | nil => intro es e1 e2; rfl
  | cons p ps ih =>
    intro es e1 e2
    simp only [List.foldl_cons]
    exact ih (es ++ [(pickName (es.map Prod.fst) (stripExt (basename p)), p)]) _ _

theorem build_trace (opts : BuildOptions) (env : Env) (input : BuildInput)
    (hne : nonEmptyInput input) :
    (build input opts env).1 =
      runBuild (withDefaultFormat opts) env
        (normalizeInput (withDefaultFormat opts) input).entries
        (normalizeInput (withDefaultFormat opts) input).ext := by
  cases input with
  | map entries => rfl
  | list paths =>
    have hl : ¬(paths.length = 0) := by
      simpa [nonEmptyInput] using hne
    simp only [build, normalizeInput]
    rw [if_neg hl]

theorem findIdx?_dot_none : ∀ (l : List Char), '.' ∉ l →
    l.findIdx? (fun c => c = '.') = none := by
  intro l
  induction l with
  | nil => intro h; rfl
  | cons c cs ih =>
    intro h
    rw [List.findIdx?_cons]
    have hc : ¬(c = '.') := fun e => h (e ▸ List.mem_cons_self c cs)
    simp [hc, ih (fun hm => h (List.mem_cons_of_mem c hm))]

/-! The claims. -/

/-- C1: for an esm build with no `mjs` key and no list input ending in
`.mjs`, the boundary inspection decides the extension: if a package
boundary for the resolved output directory is found and its manifest's
`type` is not `"module"`, every entry and chunk file name uses `.mjs` and
the warning naming the manifest path is surfaced; if the manifest declares
`type: "module"`, or no boundary exists, the extension stays `.js`. -/
theorem c1_esm_boundary_extension (input : BuildInput) (opts : BuildOptions) (env : Env)
    (hfmt : opts.format = some Format.esm) (hmjs : opts.mjs = none)
    (hwatch : truthy opts.watch = false) (hne : nonEmptyInput input)
    (hnomjs : noMjsListInput input) :
    (∀ boundary,
      env.getPackageBoundarySync (env.resolveOut opts.out ++ "/") = some boundary →
      (((env.readPackageConfigSync boundary).type ≠ some "module" →
          writtenSpec? (build input opts env).1 = some (oneShotSpec opts ".mjs") ∧
          boundaryWarning (pjsonRelPath env boundary) ∈ warnings (build input opts env).1) ∧
        ((env.readPackageConfigSync boundary).type = some "module" →
          writtenSpec? (build input opts env).1 = some (oneShotSpec opts ".js")))) ∧
    (env.getPackageBoundarySync (env.resolveOut opts.out ++ "/") = none →
      writtenSpec? (build input opts env).1 = some (oneShotSpec opts ".js")) := by
  have hset : opts.format ≠ none := by simp [hfmt]
  have hext : (normalizeInput opts input).ext = ".js" := by
    cases input with
    | map entries => simp [normalizeInput, hmjs, truthy]
    | list paths =>
      have hall : ∀ p ∈ paths, endsWithStr p ".mjs" = false := hnomjs
      unfold normalizeInput scanInputs
      rw [scan_ext_stay opts paths _ hall]
      simp [hmjs, truthy]
  rw [build_trace opts env input hne, withDefaultFormat_of_set hset, hext]
  refine ⟨fun boundary hb => ⟨fun ht => ⟨?_, ?_⟩, fun ht => ?_⟩, fun hb => ?_⟩
  · rw [writtenSpec?_runBuild _ _ _ _ hwatch,
      boundaryCheck_not_module opts env ".js" boundary hfmt hmjs (by decide) hb ht]
  · apply warnings_runBuild_oneShot _ _ _ _ hwatch
    rw [boundaryCheck_not_module opts env ".js" boundary hfmt hmjs (by decide) hb ht]
    simp
  · rw [writtenSpec?_runBuild _ _ _ _ hwatch,
      boundaryCheck_module opts env ".js" boundary hfmt hmjs (by decide) hb ht]
  · rw [writtenSpec?_runBuild _ _ _ _ hwatch,
      boundaryCheck_no_boundary opts env ".js" hfmt hmjs (by decide) hb]

/-- C1 witness: a concrete esm build over a `commonjs` boundary writes
`.mjs` names and surfaces the boundary warning. -/
theorem c1_boundary_witness :
    c1opts.format = some Format.esm ∧ c1opts.mjs = none ∧
    truthy c1opts.watch = false ∧ nonEmptyInput (BuildInput.list ["src/app.js"]) ∧
    noMjsListInput (BuildInput.list ["src/app.js"]) ∧
    (writtenSpec? (build (BuildInput.list ["src/app.js"]) c1opts boundaryEnv).1 =
        some (oneShotSpec c1opts ".mjs") ∧
      boundaryWarning (pjsonRelPath boundaryEnv "/work/proj") ∈
        warnings (build (BuildInput.list ["src/app.js"]) c1opts boundaryEnv).1) :=
  ⟨by decide, by decide, by decide, by decide, by decide,
    ((c1_esm_boundary_extension (BuildInput.list ["src/app.js"]) c1opts boundaryEnv
        (by decide) (by decide) (by decide) (by decide) (by decide)).1
      "/work/proj" rfl).1 (by decide)⟩

/-- C2 counterexample: with `format: 'cjs'` and `mjs: true` the written
entry and chunk patterns use `.mjs`, refuting the claim that a cjs build
always uses `.js` regardless of `mjs`. -/
theorem c2_counterexample :
    (writtenSpec? (build (BuildInput.list ["src/app.js"]) c2opts simpleEnv).1).map
        OutputSpec.entryFileNames = some (some "[name].mjs") ∧
    (writtenSpec? (build (BuildInput.list ["src/app.js"]) c2opts simpleEnv).1).map
        OutputSpec.entryFileNames ≠ some (some ("[name]" ++ ".js")) ∧
    (writtenSpec? (build (BuildInput.list ["src/app.js"]) c2opts simpleEnv).1).map
        OutputSpec.chunkFileNames = some (some "chunk-[hash].mjs") ∧
    (writtenSpec? (build (BuildInput.list ["src/app.js"]) c2opts simpleEnv).1).map
        OutputSpec.chunkFileNames ≠ some (some ("chunk-[hash]" ++ ".js")) := by
  decide

/-- C2 (amended): for `format: 'cjs'` — and likewise any other non-esm
format — the boundary manifest is never consulted and the extension is
`.js` exactly when `options.mjs` is not `true`; with `mjs: true` the
initial assignment makes it `.mjs` even for non-esm output. -/
theorem c2_non_esm_extension (input : BuildInput) (opts : BuildOptions) (env : Env)
    (f : Format) (hfmt : opts.format = some f) (hnesm : f ≠ Format.esm)
    (hwatch : truthy opts.watch = false) (hne : nonEmptyInput input) :
    writtenSpec? (build input opts env).1 =
      some (oneShotSpec opts (if truthy opts.mjs then ".mjs" else ".js")) ∧
    boundaryChecks (build input opts env).1 = [] := by
  have hset : opts.format ≠ none := by simp [hfmt]
  have hnesm1 : opts.format ≠ some Format.esm := by
    rw [hfmt]
    intro hc
    exact hnesm (Option.some.inj hc)
  have hext : (normalizeInput opts input).ext =
      (if truthy opts.mjs then ".mjs" else ".js") := by
    cases input with
    | map entries => rfl
    | list paths => exact scan_ext_not_esm opts hnesm1 paths _
  rw [build_trace opts env input hne, withDefaultFormat_of_set hset, hext]
  constructor
  · rw [writtenSpec?_runBuild _ _ _ _ hwatch, boundaryCheck_not_esm opts env _ hnesm1]
  · rw [boundaryChecks_runBuild_oneShot _ _ _ _ hwatch, boundaryCheck_not_esm opts env _ hnesm1]
    rfl

/-- C2 witness: the amended statement at the concrete cjs build with
`mjs: true`. -/
theorem c2_non_esm_witness :
    c2opts.format = some Format.cjs ∧ Format.cjs ≠ Format.esm ∧
    truthy c2opts.watch = false ∧
    nonEmptyInput (BuildInput.list ["src/app.js"]) ∧
    (writtenSpec? (build (BuildInput.list ["src/app.js"]) c2opts simpleEnv).1 =
        some (oneShotSpec c2opts ".mjs") ∧
      boundaryChecks (build (BuildInput.list ["src/app.js"]) c2opts simpleEnv).1 = []) :=
  ⟨by decide, by decide, by decide, by decide,
    c2_non_esm_extension (BuildInput.list ["src/app.js"]) c2opts simpleEnv
      Format.cjs (by decide) (by decide) (by decide) (by decide)⟩

/-- C3 counterexample: in watch mode the output descriptor handed to the
watcher carries no `entryFileNames`/`chunkFileNames` at all, so it does
not use the one-shot naming `{entryName}{ext}` / `chunk-{hash}{ext}`
(here the resolved extension is `.js`). -/
theorem c3_counterexample :
    (watchStartedSpec? (build (BuildInput.list ["src/app.js"]) watchOpts simpleEnv).1).map
        OutputSpec.entryFileNames = some none ∧
    (watchStartedSpec? (build (BuildInput.list ["src/app.js"]) watchOpts simpleEnv).1).map
        OutputSpec.entryFileNames ≠ some (some ("[name]" ++ ".js")) ∧
    (watchStartedSpec? (build (BuildInput.list ["src/app.js"]) watchOpts simpleEnv).1).map
        OutputSpec.chunkFileNames = some none ∧
    (watchStartedSpec? (build (BuildInput.list ["src/app.js"]) watchOpts simpleEnv).1).map
        OutputSpec.chunkFileNames ≠ some (some ("chunk-[hash]" ++ ".js")) := by
  decide

/-- C3 (amended): the watcher's output descriptor shares `exports`, `dir`,
`format`, `sourcemap`, `indent` and `banner` with the one-shot write
descriptor but omits the entry and chunk file-naming patterns, leaving
naming to the bundler's defaults rather than the resolved extension. -/
theorem c3_watch_output_spec (input : BuildInput) (opts : BuildOptions) (env : Env)
    (hwatch : truthy opts.watch = true) (hne : nonEmptyInput input) (ext : String) :
    watchStartedSpec? (build input opts env).1 =
      some { oneShotSpec (withDefaultFormat opts) ext with
              entryFileNames := none, chunkFileNames := none } := by
  rw [build_trace opts env input hne]
  rw [watchStartedSpec?_runBuild _ _ _ _ (by rw [withDefaultFormat_watch]; exact hwatch)]
  rfl

/-- C3 witness: the amended statement at a concrete watch build. -/
theorem c3_watch_witness :
    truthy watchOpts.watch = true ∧ nonEmptyInput (BuildInput.list ["src/app.js"]) ∧
    watchStartedSpec? (build (BuildInput.list ["src/app.js"]) watchOpts simpleEnv).1 =
      some { oneShotSpec (withDefaultFormat watchOpts) ".js" with
              entryFileNames := none, chunkFileNames := none } :=
  ⟨by decide, by decide,
    c3_watch_output_spec (BuildInput.list ["src/app.js"]) watchOpts simpleEnv
      (by decide) (by decide) ".js"⟩

/-- C4: for every non-empty input list the canonical map has exactly one
entry per input in supplied order, all entry names are pairwise distinct,
and shared base filenames are resolved by appending 0, 1, 2, …, the first
input keeping the bare name (`["a/foo.js","b/foo.js"]` gives `foo` and
`foo0`). -/
theorem c4_canonical_names_unique (opts : BuildOptions) (paths : List String)
    (_hne : paths ≠ []) :
    (canonicalEntries opts paths).length = paths.length ∧
    ((canonicalEntries opts paths).map Prod.fst).Nodup ∧
    (canonicalEntries opts paths).map Prod.snd = paths ∧
    canonicalEntries opts ["a/foo.js", "b/foo.js"] =
      [("foo", "a/foo.js"), ("foo0", "b/foo.js")] := by
  obtain ⟨h1, h2, h3⟩ := foldl_scan_entries opts paths
    ⟨[], if truthy opts.mjs then ".mjs" else ".js"⟩ (by simp)
  refine ⟨?_, ?_, ?_, ?_⟩
  · unfold canonicalEntries scanInputs
    simpa using h3
  · unfold canonicalEntries scanInputs
    exact h1
  · unfold canonicalEntries scanInputs
    simpa using h2
  · rw [show canonicalEntries opts ["a/foo.js", "b/foo.js"] =
        canonicalEntries { log := false } ["a/foo.js", "b/foo.js"] from
      scan_entries_opts_free opts { log := false } ["a/foo.js", "b/foo.js"] [] _ _]
    decide

/-- C4 witness: the collision example evaluated concretely. -/
theorem c4_names_witness :
    (["a/foo.js", "b/foo.js"] : List String) ≠ [] ∧
    canonicalEntries { log := false } ["a/foo.js", "b/foo.js"] =
      [("foo", "a/foo.js"), ("foo0", "b/foo.js")] :=
  ⟨by decide,
    (c4_canonical_names_unique { log := false } ["a/foo.js", "b/foo.js"] (by decide)).2.2.2⟩

/-- C5: an empty input list makes `build` print the warning
"No inputs provided to build." and return at once — the whole trace is
that single warning, so no engine call, no filesystem action and no write
happen, and nothing is thrown. -/
theorem c5_empty_input_skips (opts : BuildOptions) (env : Env) :
    build (BuildInput.list []) opts env =
      ([Effect.warned "No inputs provided to build."], withDefaultFormat opts) := rfl

/-- C6: with esm format, no `mjs` key, and some list input ending in
`.mjs`, the whole build's extension is `.mjs` for every entry and chunk
name, and the package-boundary inspection never runs. -/
theorem c6_mjs_input_global (opts : BuildOptions) (env : Env)
    (paths : List String) (p : String)
    (hfmt : opts.format = some Format.esm) (hmjs : opts.mjs = none)
    (hwatch : truthy opts.watch = false)
    (hp : p ∈ paths) (hend : endsWithStr p ".mjs" = true) :
    writtenSpec? (build (BuildInput.list paths) opts env).1 =
      some (oneShotSpec opts ".mjs") ∧
    boundaryChecks (build (BuildInput.list paths) opts env).1 = [] := by
  have hne : nonEmptyInput (BuildInput.list paths) :=
    fun h => absurd (h ▸ hp) (List.not_mem_nil p)
  have hset : opts.format ≠ none := by simp [hfmt]
  have hext : (normalizeInput opts (BuildInput.list paths)).ext = ".mjs" := by
    unfold normalizeInput scanInputs
    exact scan_ext_mjs opts hfmt hmjs paths _ p hp hend
  rw [build_trace opts env _ hne, withDefaultFormat_of_set hset, hext]
  constructor
  · rw [writtenSpec?_runBuild _ _ _ _ hwatch, boundaryCheck_skip_mjs]
  · rw [boundaryChecks_runBuild_oneShot _ _ _ _ hwatch, boundaryCheck_skip_mjs]
    rfl

/-- C6 witness: one `.mjs` input among two makes the whole build `.mjs`
with no boundary inspection. -/
theorem c6_mjs_witness :
    c1opts.format = some Format.esm ∧ c1opts.mjs = none ∧
    truthy c1opts.watch = false ∧
    ("src/app.mjs" : String) ∈ ["src/app.mjs", "src/other.js"] ∧
    endsWithStr "src/app.mjs" ".mjs" = true ∧
    (writtenSpec? (build (BuildInput.list ["src/app.mjs", "src/other.js"]) c1opts simpleEnv).1 =
        some (oneShotSpec c1opts ".mjs") ∧
      boundaryChecks
        (build (BuildInput.list ["src/app.mjs", "src/other.js"]) c1opts simpleEnv).1 = []) :=
  ⟨by decide, by decide, by decide, by decide, by decide,
    c6_mjs_input_global c1opts simpleEnv ["src/app.mjs", "src/other.js"] "src/app.mjs"
      (by decide) (by decide) (by decide) (by decide) (by decide)⟩

/-- C7 counterexample: with no `format` key the caller's options object
comes back mutated — `build` wrote `format: 'esm'` into it. -/
theorem c7_counterexample :
    (build (BuildInput.list ["src/app.js"]) { log := false } simpleEnv).2.format ≠
      ({ log := false } : BuildOptions).format := by
  decide

/-- C7 (amended): `build` leaves every field of the caller's options
unchanged except `format`, which it sets in place to `'esm'` when the
caller left it unset; when `format` was supplied the object is returned
exactly as given. -/
theorem c7_options_after_build (input : BuildInput) (opts : BuildOptions) (env : Env) :
    (build input opts env).2 = withDefaultFormat opts ∧
    (opts.format ≠ none → (build input opts env).2 = opts) := by
  have h : (build input opts env).2 = withDefaultFormat opts := by
    cases input with
    | map entries => rfl
    | list paths =>
      by_cases hl : paths.length = 0
      · simp only [build]; rw [if_pos hl]
      · simp only [build]; rw [if_neg hl]
  exact ⟨h, fun hf => h.trans (withDefaultFormat_of_set hf)⟩

/-- C7 witness: with `format` supplied the options object is unchanged. -/
theorem c7_options_witness :
    c2opts.format ≠ none ∧
    (build (BuildInput.list ["src/app.js"]) c2opts simpleEnv).2 = c2opts :=
  ⟨by decide,
    (c7_options_after_build (BuildInput.list ["src/app.js"]) c2opts simpleEnv).2 (by decide)⟩

/-- C8: at a failing input — `showGraph` and `log` set, two chunks named
`a` and `b` — the graph summary prints, for both chunks, a header built
from the ambient global `name` (`undefined` in Node), not the chunk's own
declared name: the two header lines are identical and neither mentions
`a` or `b`. -/
theorem c8_graph_header_bug :
    printedLines (build (BuildInput.list ["src/app.js"]) c8opts graphEnv).1 =
      ["", "undefined:", "  /work/src/m1.js", "", "undefined:", "  /work/src/m1.js", ""] ∧
    graphEnv.engineOutput.map Chunk.name = ["a", "b"] ∧
    (printedLines (build (BuildInput.list ["src/app.js"]) c8opts graphEnv).1)[1]? =
      (printedLines (build (BuildInput.list ["src/app.js"]) c8opts graphEnv).1)[4]? := by
  decide

/-- C9: in watch mode the trace ends at the indefinite suspension and no
effect of the one-shot path after it — engine one-shot invocation,
directory removal or recreation, write, success log, graph printing —
ever occurs. -/
theorem c9_watch_suspends (input : BuildInput) (opts : BuildOptions) (env : Env)
    (hwatch : truthy opts.watch = true) (hne : nonEmptyInput input) :
    (build input opts env).1.getLast? = some Effect.suspended ∧
    ∀ e ∈ (build input opts env).1, isOneShotEffect e = false := by
  rw [build_trace opts env input hne]
  have hw1 : truthy (withDefaultFormat opts).watch = true := by
    rw [withDefaultFormat_watch]; exact hwatch
  rw [runBuild_watch _ _ _ _ hw1]
  constructor
  · rw [show (boundaryCheck (withDefaultFormat opts) env
          (normalizeInput (withDefaultFormat opts) input).ext).1 ++
        [Effect.watchStarted (watchOutputSpec (withDefaultFormat opts)), Effect.suspended] =
        ((boundaryCheck (withDefaultFormat opts) env
          (normalizeInput (withDefaultFormat opts) input).ext).1 ++
        [Effect.watchStarted (watchOutputSpec (withDefaultFormat opts))]) ++
        [Effect.suspended] from by simp]
    exact List.getLast?_concat _
  · intro e he
    rcases List.mem_append.mp he with h | h
    · rcases boundaryCheck_fx_shape _ _ _ e h with ⟨d, rfl⟩ | ⟨m, rfl⟩ <;> rfl
    · simp only [List.mem_cons, List.mem_singleton] at h
      rcases h with h | h | h
      · subst h; rfl
      · subst h; rfl
      · simp at h

/-- C9 witness: a concrete watch build ends suspended. -/
theorem c9_watch_witness :
    truthy watchOpts.watch = true ∧ nonEmptyInput (BuildInput.list ["src/app.js"]) ∧
    (build (BuildInput.list ["src/app.js"]) watchOpts simpleEnv).1.getLast? =
      some Effect.suspended :=
  ⟨by decide, by decide,
    (c9_watch_suspends (BuildInput.list ["src/app.js"]) watchOpts simpleEnv
      (by decide) (by decide)).1⟩

/-- C10: a list input whose base filename has no dot gets the empty
string as its candidate entry name (`substr(0, -1)`), so its entry file
is named by the extension alone, and a second dot-free input gets the
name `0`. -/
theorem c10_dotfree_name_empty (p : String) (h : '.' ∉ (basename p).data) :
    stripExt (basename p) = "" ∧
    canonicalEntries { log := false } ["dir/Makefile", "sub/LICENSE"] =
      [("", "dir/Makefile"), ("0", "sub/LICENSE")] := by
  constructor
  · unfold stripExt
    rw [findIdx?_dot_none _ (fun hm => h (List.mem_reverse.mp hm))]
  · decide

/-- C10 witness: a concrete dot-free basename yields the empty name. -/
theorem c10_dotfree_witness :
    '.' ∉ (basename "x/LICENSE").data ∧ stripExt (basename "x/LICENSE") = "" :=
  ⟨by decide, (c10_dotfree_name_empty "x/LICENSE" (by decide)).1⟩

end JspmBuild
